import Mathlib

/-!
Shallow embedding of the `patchable` crates.

From `patchable-core/src/lib.rs`: the `Patchable<P>` trait and its two
blanket impls (`Patchable<Option<T>> for T` and
`Patchable<Vec<P>> for T where T: Patchable<P>`).

From `patchable-macros/src/lib.rs`: representative instances of the code
generated by `#[derive(Patchable)]` for structs with named fields
(the macro emits, for each field, `self.field.apply_patch(patch.field);`
in declaration order).

Rust's in-place mutation through `&mut self` is modelled by returning the
updated value; `Vec<P>` is modelled as `List P`; `i32` as `Int` (no
arithmetic is performed, only moves, so overflow never matters).
-/

/-- The trait `Patchable<P>`: a type that can be patched by values of type
`P`.  `fn apply_patch(&mut self, patch: P)` becomes a function from the old
target and the patch to the new target. -/
class Patchable (V : Type) (P : Type) where
  apply_patch : V → P → V

open Patchable (apply_patch)

/-- `impl<T> Patchable<Option<T>> for T`: `if let Some(inner) = patch
\x7b *self = inner; \x7d` — a present patch overwrites the target wholesale,
an absent patch leaves it untouched. -/
instance optionImpl (T : Type) : Patchable T (Option T) where
  apply_patch self patch :=
    match patch with
    | some inner => inner
    | none => self

/-- `impl<T, P> Patchable<Vec<P>> for T where T: Patchable<P>`:
`for patch in patches \x7b self.apply_patch(patch); \x7d` — a left fold of
`apply_patch` over the same target. -/
instance vecImpl (T P : Type) [Patchable T P] : Patchable T (List P) where
  apply_patch self patches := List.foldl (fun t p => apply_patch t p) self patches

/-- The struct from the derive macro's first doc example:
`struct MyStruct \x7b foo: String, bar: i32 \x7d`. -/
structure MyStruct where
  foo : String
  bar : Int

/-- The generated patch struct: every field gets the default shape
`Option<FieldType>`. -/
structure MyStructPatch where
  foo : Option String
  bar : Option Int

/-- The generated impl for `MyStruct`: the macro expands to
`self.foo.apply_patch(patch.foo); self.bar.apply_patch(patch.bar);`,
one statement per declared field, in declaration order. -/
instance myStructImpl : Patchable MyStruct MyStructPatch where
  apply_patch self patch :=
    let s1 : MyStruct := { self with foo := apply_patch self.foo patch.foo }
    let s2 : MyStruct := { s1 with bar := apply_patch s1.bar patch.bar }
    s2

/-- `struct Bar \x7b foobar: i32 \x7d` from the derive macro's nesting
doc example. -/
structure Bar where
  foobar : Int

/-- The generated `BarPatch \x7b foobar: Option<i32> \x7d`. -/
structure BarPatch where
  foobar : Option Int

/-- The generated impl for `Bar`. -/
instance barImpl : Patchable Bar BarPatch where
  apply_patch self patch :=
    let s1 : Bar := { self with foobar := apply_patch self.foobar patch.foobar }
    s1

/-- The outer struct of the macro's nesting doc example (there named
`MyStruct` again): `\x7b foo: String, #[patch(BarPatch)] bar: Bar \x7d`.
Field `foo` keeps the default optional-replacement shape; field `bar` is
declared with the nested shape `BarPatch`. -/
structure Outer where
  foo : String
  bar : Bar

/-- The generated patch struct `\x7b foo: Option<String>, bar: BarPatch \x7d`. -/
structure OuterPatch where
  foo : Option String
  bar : BarPatch

/-- The generated impl for `Outer`: recurses into `bar` via `BarPatch`
instead of replacing it. -/
instance outerImpl : Patchable Outer OuterPatch where
  apply_patch self patch :=
    let s1 : Outer := { self with foo := apply_patch self.foo patch.foo }
    let s2 : Outer := { s1 with bar := apply_patch s1.bar patch.bar }
    s2

/-- The record type of the spec's concrete scenario:
`\x7b name: String, age: Option<Int> \x7d` with default shapes. -/
structure Person where
  name : String
  age : Option Int

/-- Its generated patch: default shape makes the `age` patch field doubly
optional, `Option<Option<Int>>`. -/
structure PersonPatch where
  name : Option String
  age : Option (Option Int)

/-- The generated impl for `Person`. -/
instance personImpl : Patchable Person PersonPatch where
  apply_patch self patch :=
    let s1 : Person := { self with name := apply_patch self.name patch.name }
    let s2 : Person := { s1 with age := apply_patch s1.age patch.age }
    s2

/-- Deep embedding of the patch shapes the two blanket impls of
`patchable-core` generate over a base target type `α`: a leaf
optional-replacement patch, or a sequence of patches of one nested shape,
arbitrarily deep. -/
inductive NestedPatch (α : Type) where
  | leaf : Option α → NestedPatch α
  | seq : List (NestedPatch α) → NestedPatch α

/-- Evaluator for `NestedPatch`, following the two impls: a leaf behaves
like `Patchable<Option<T>>`, a sequence folds left like
`Patchable<Vec<P>>`. -/
def apply_nested {α : Type} : α → NestedPatch α → α
  | t, .leaf none => t
  | _, .leaf (some v) => v
  | t, .seq [] => t
  | t, .seq (p :: ps) => apply_nested (apply_nested t p) (.seq ps)

/-- Big-step evaluation relation mirroring the control flow of the two
blanket impls: a judgement `ApplyRel t p r` says applying patch `p` to
target `t` completes normally with final target `r`. -/
inductive ApplyRel {α : Type} : α → NestedPatch α → α → Prop where
  | absent (t : α) : ApplyRel t (.leaf none) t
  | present (t v : α) : ApplyRel t (.leaf (some v)) v
  | nil (t : α) : ApplyRel t (.seq []) t
  | cons (t t1 t2 : α) (p : NestedPatch α) (ps : List (NestedPatch α)) :
      ApplyRel t p t1 → ApplyRel t1 (.seq ps) t2 → ApplyRel t (.seq (p :: ps)) t2

theorem applyRel_total {α : Type} : ∀ (t : α) (p : NestedPatch α),
    ApplyRel t p (apply_nested t p)
  | t, .leaf none => by
      simp only [apply_nested]
      exact .absent t
  | t, .leaf (some v) => by
      simp only [apply_nested]
      exact .present t v
  | t, .seq [] => by
      simp only [apply_nested]
      exact .nil t
  | t, .seq (p :: ps) => by
      simp only [apply_nested]
      exact .cons t (apply_nested t p) (apply_nested (apply_nested t p) (.seq ps)) p ps
        (applyRel_total t p) (applyRel_total (apply_nested t p) (.seq ps))

theorem foldl_apply_append {T P : Type} [Patchable T P]
    (t : T) (v1 v2 : List P) :
    List.foldl (fun a p => apply_patch a p) t (v1 ++ v2) =
      List.foldl (fun a p => apply_patch a p) (List.foldl (fun a p => apply_patch a p) t v1) v2 := by
  induction v1 generalizing t with
  | nil => rfl
  | cons x xs ih => simp only [List.cons_append, List.foldl_cons]; exact ih (apply_patch t x)

/-- C1: applying the absent optional-replacement patch `None` leaves the
target exactly equal to its prior value. -/
theorem C1_absent_identity (T : Type) (t : T) :
    Patchable.apply_patch t (none : Option T) = t := rfl

/-- C2: applying the present optional-replacement patch `Some v2` leaves
the target equal to `v2`, whatever value it held before; the old value is
discarded, not merged. -/
theorem C2_present_overwrite (T : Type) (t v2 : T) :
    Patchable.apply_patch t (some v2) = v2 := rfl

/-- C3: applying a sequence patch is the left-to-right fold of
`apply_patch` over the same target; in particular, for
optional-replacement patches, `[Some A, Some B]` yields `B` and
`[Some B, Some A]` yields `A`. -/
theorem C3_sequence_fold :
    (∀ (T P : Type) [Patchable T P] (t : T) (ps : List P),
      apply_patch t ps = List.foldl (fun a p => apply_patch a p) t ps) ∧
    (∀ (T : Type) (t A B : T),
      apply_patch t [some A, some B] = B ∧ apply_patch t [some B, some A] = A) :=
  ⟨fun _ _ _ _ _ => rfl, fun _ _ _ _ => ⟨rfl, rfl⟩⟩

/-- C4: the generated record impl patches every declared field exactly
once, each by its own field patch under its own shape, and each field of
the result depends only on that field's prior value and its own patch
field (no field outside the schema is touched). -/
theorem C4_record_fieldwise (t : MyStruct) (p : MyStructPatch) :
    (apply_patch t p).foo = apply_patch t.foo p.foo ∧
    (apply_patch t p).bar = apply_patch t.bar p.bar :=
  ⟨rfl, rfl⟩

/-- C5: the empty sequence patch is a no-op, and a singleton sequence
`[p]` is equivalent to applying `p` directly. -/
theorem C5_sequence_identity :
    (∀ (T P : Type) [Patchable T P] (t : T),
      apply_patch t ([] : List P) = t) ∧
    (∀ (T P : Type) [Patchable T P] (t : T) (p : P),
      apply_patch t [p] = apply_patch t p) :=
  ⟨fun _ _ _ _ => rfl, fun _ _ _ _ _ => rfl⟩

/-- C6: over the patch shapes of `patchable-core`, arbitrarily nested,
application always completes normally: for every target and patch the
big-step relation produces a result, and that result is the one the total
evaluator `apply_nested` computes — there is no failure branch and no
input is rejected. -/
theorem C6_apply_total {α : Type} (t : α) (p : NestedPatch α) :
    ∃ r : α, apply_nested t p = r ∧ ApplyRel t p r :=
  ⟨apply_nested t p, rfl, applyRel_total t p⟩

/-- C7: applying to `Outer` a record patch whose optional-shaped `foo`
patch is absent and whose `bar` patch is nested leaves `foo` exactly
unchanged and merges into `bar`'s internals (the nested application
recurses into the field rather than replacing it: with the inner patch
also absent the whole target survives intact). -/
theorem C7_nested_frame (t : Outer) (pf : Option Int) :
    (apply_patch t (OuterPatch.mk none (BarPatch.mk pf))).foo = t.foo ∧
    (apply_patch t (OuterPatch.mk none (BarPatch.mk pf))).bar.foobar =
      apply_patch t.bar.foobar pf ∧
    apply_patch t (OuterPatch.mk none (BarPatch.mk none)) = t :=
  ⟨rfl, rfl, rfl⟩

/-- C8: the spec's concrete scenario with default shapes.  Because `age`
has value type `Option Int`, its default patch field is doubly optional;
the patch written `Some(31)` is the present patch carrying the new `age`
value `31`, i.e. `some (some 31)`, and `age` values are written with
their `some`.  Applying `\x7b name: None, age: Some(31) \x7d` to
`\x7b "Alice", 30 \x7d` yields `\x7b "Alice", 31 \x7d`; then applying
`\x7b name: Some("Bob"), age: None \x7d` yields `\x7b "Bob", 31 \x7d`. -/
theorem C8_concrete_scenario :
    apply_patch (Person.mk "Alice" (some 30))
        (PersonPatch.mk none (some (some 31))) =
      Person.mk "Alice" (some 31) ∧
    apply_patch (apply_patch (Person.mk "Alice" (some 30))
          (PersonPatch.mk none (some (some 31))))
        (PersonPatch.mk (some "Bob") none) =
      Person.mk "Bob" (some 31) :=
  ⟨rfl, rfl⟩

/-- C9: for a field of value type `Option U` under the default shape the
patch type is `Option (Option U)`: `none` leaves the field unchanged,
`some none` clears it to `none`, and `some (some u)` sets it to
`some u`. -/
theorem C9_double_option (U : Type) (t : Option U) (u : U) :
    Patchable.apply_patch t (none : Option (Option U)) = t ∧
    Patchable.apply_patch t (some (none : Option U)) = none ∧
    Patchable.apply_patch t (some (some u)) = some u :=
  ⟨rfl, rfl, rfl⟩

/-- C10: sequence application is a homomorphism over list concatenation:
applying the single sequence patch `v1 ++ v2` equals applying sequence
`v1` and then sequence `v2`. -/
theorem C10_append_hom (T P : Type) [Patchable T P]
    (t : T) (v1 v2 : List P) :
    apply_patch t (v1 ++ v2) = apply_patch (apply_patch t v1) v2 :=
  foldl_apply_append t v1 v2
